import Mathlib

/-!
Verification development for the `3d_design` repository, centred on the
procedural honeycomb texture generator (`src/dtools/texture.py`) and the
hierarchical tile unioner (`src/dtools/img_tools.py`).

Conventions of the shallow embedding:
* Python floats are modelled by an arbitrary `LinearOrderedField` (instantiated
  at `ℚ` for executable checks and at `ℝ` where the source uses `math.sqrt`,
  `math.cos`, `math.sin`); float arithmetic is modelled as exact field
  arithmetic.
* `cq.Vector` is modelled by `Vec3`, with `dot`, `cross`, `multiply`, `add`,
  `sub` following the kernel's componentwise semantics.
* Fallible kernel calls are modelled with `Option`/`Except`.
* Solid geometry produced by the CAD kernel (extrusions, boolean union /
  intersection) is modelled point-set-theoretically as `Set (Vec3 ℝ)`, with
  union/intersection as set union/intersection.
-/

namespace DTools

/-- A 3D vector, modelling `cq.Vector`. -/
structure Vec3 (K : Type) where
  x : K
  y : K
  z : K
  deriving DecidableEq, Repr

namespace Vec3

variable {K : Type} [LinearOrderedField K]

/-- Componentwise addition (`cq.Vector.add` / `+`). -/
def add (a b : Vec3 K) : Vec3 K := ⟨a.x + b.x, a.y + b.y, a.z + b.z⟩

/-- Componentwise subtraction (`cq.Vector.sub` / `-`). -/
def sub (a b : Vec3 K) : Vec3 K := ⟨a.x - b.x, a.y - b.y, a.z - b.z⟩

/-- Scalar multiplication (`cq.Vector.multiply`). -/
def multiply (a : Vec3 K) (c : K) : Vec3 K := ⟨a.x * c, a.y * c, a.z * c⟩

/-- Dot product (`cq.Vector.dot`). -/
def dot (a b : Vec3 K) : K := a.x * b.x + a.y * b.y + a.z * b.z

/-- Cross product (`cq.Vector.cross`). -/
def cross (a b : Vec3 K) : Vec3 K :=
  ⟨a.y * b.z - a.z * b.y, a.z * b.x - a.x * b.z, a.x * b.y - a.y * b.x⟩

theorem dot_comm (a b : Vec3 K) : a.dot b = b.dot a := by
  simp only [dot]; ring

theorem cross_dot_left (a b : Vec3 K) : (a.cross b).dot a = 0 := by
  simp only [dot, cross]; ring

theorem cross_dot_right (a b : Vec3 K) : (a.cross b).dot b = 0 := by
  simp only [dot, cross]; ring

/-- Lagrange's identity for the squared norm of a cross product. -/
theorem dot_cross_self (a b : Vec3 K) :
    (a.cross b).dot (a.cross b) = a.dot a * (b.dot b) - (a.dot b) ^ 2 := by
  simp only [dot, cross]; ring

end Vec3

/-- The honeycomb texture spec, `HoneycombTexture` in `src/dtools/texture.py`:
six configuration fields and nothing else (in particular, no random seed).
The source declares dataclass defaults `height_steps = 10`,
`rotation_degrees = 0.0`, `spacing_coefficient = 1.0`. -/
structure HoneycombTexture (K : Type) where
  hex_side_len : K
  hex_height_min : K
  hex_height_max : K
  height_steps : ℤ
  rotation_degrees : K
  spacing_coefficient : K
  deriving DecidableEq, Repr

section Geometry2D

variable {K : Type} [LinearOrderedField K]

/-- One iteration of the edge loop of `_point_in_polygon`: the running parity
flips when the ray-casting conditions of the source hold for the edge
`(p1, p2)`.  `xinters` follows the source, including the horizontal-edge
branch. -/
def pipFlips (x y : K) (p1 p2 : K × K) : Prop :=
  y > min p1.2 p2.2 ∧ y ≤ max p1.2 p2.2 ∧ x ≤ max p1.1 p2.1 ∧
    (p1.1 = p2.1 ∨
      x ≤ (if p1.2 ≠ p2.2 then (y - p1.2) * (p2.1 - p1.1) / (p2.2 - p1.2) + p1.1
           else p1.1))

instance (x y : K) (p1 p2 : K × K) : Decidable (pipFlips x y p1 p2) := by
  unfold pipFlips; infer_instance

/-- The loop of `_point_in_polygon`: `p1` is the current vertex, the list holds
the remaining loop targets `p2`, `inside` is the running parity. -/
def pointInPolygonAux (x y : K) : K × K → List (K × K) → Bool → Bool
  | _, [], inside => inside
  | p1, p2 :: rest, inside =>
      pointInPolygonAux x y p2 rest (if pipFlips x y p1 p2 then !inside else inside)

/-- Source `_point_in_polygon(x, y, polygon)`: ray-casting point-in-polygon test.
The loop visits the edges `(polygon[i-1], polygon[i % n])` for `i = 1..n`.
(The source indexes `polygon[0]` unconditionally; an empty polygon never
reaches it, so the `[]` case is unconstrained and modelled as `false`.) -/
def pointInPolygon (x y : K) (polygon : List (K × K)) : Bool :=
  match polygon with
  | [] => false
  | p0 :: rest => pointInPolygonAux x y p0 (rest ++ [p0]) false

/-- Python's built-in `abs` on floats. -/
def pyAbs (x : K) : K := if x < 0 then -x else x

theorem pyAbs_eq_abs (x : K) : pyAbs x = |x| := by
  unfold pyAbs
  rcases lt_or_le x 0 with h | h
  · rw [if_pos h, abs_of_neg h]
  · rw [if_neg (not_lt.mpr h), abs_of_nonneg h]

/-- Source `_line_segments_intersect(p1, p2, p3, p4)`: parametric 2D segment
intersection; denominators with absolute value below `1e-10` are treated as
parallel (no intersection); otherwise both parameters must lie in `[0, 1]`. -/
def lineSegmentsIntersect (p1 p2 p3 p4 : K × K) : Bool :=
  let denom := (p1.1 - p2.1) * (p3.2 - p4.2) - (p1.2 - p2.2) * (p3.1 - p4.1)
  if pyAbs denom < 1 / 10000000000 then false
  else
    let t := ((p1.1 - p3.1) * (p3.2 - p4.2) - (p1.2 - p3.2) * (p3.1 - p4.1)) / denom
    let u := -((p1.1 - p2.1) * (p1.2 - p3.2) - (p1.2 - p2.2) * (p1.1 - p3.1)) / denom
    decide (0 ≤ t ∧ t ≤ 1 ∧ 0 ≤ u ∧ u ≤ 1)

/-- The six hexagon vertices computed in `_hex_would_intersect_face`: vertex
`i` sits at angle `i·60°` on the circle of radius `r` around `(cx, cy)`.
The source evaluates `math.cos`/`math.sin` at those angles; the parameter `s3`
stands for `math.sqrt 3` (the only irrational involved: the sines are
`0, ±√3/2` and the cosines `±1, ±1/2`); `hexVertices_sqrt3` below checks this
against the trigonometric form at `K = ℝ`. -/
def hexVertices (s3 : K) (cx cy r : K) : List (K × K) :=
  [(cx + r * 1,          cy + r * 0),
   (cx + r * (1 / 2),    cy + r * (s3 / 2)),
   (cx + r * (-(1 / 2)), cy + r * (s3 / 2)),
   (cx + r * (-1),       cy + r * 0),
   (cx + r * (-(1 / 2)), cy + r * (-(s3 / 2))),
   (cx + r * (1 / 2),    cy + r * (-(s3 / 2)))]

/-- The closed edge list of a polygon given as a vertex list: edge `j` joins
vertex `j` to vertex `(j+1) % n`, as in the edge loops of
`_hex_would_intersect_face`. -/
def polygonEdges (pts : List (K × K)) : List ((K × K) × (K × K)) :=
  match pts with
  | [] => []
  | p0 :: rest => (p0 :: rest).zip (rest ++ [p0])

/-- Source `_hex_would_intersect_face`: decides whether the hexagon of circumradius
`hexSideLen` at local coordinates `(localX, localY)` overlaps the face's
projected boundary polygon.  Follows the source: recover `(u_proj, v_proj)` by
projecting the reconstructed world position, project the face boundary
vertices to 2D, then test (a) hexagon vertices inside the face polygon,
(b) face vertices inside the hexagon, (c) pairwise edge intersection. -/
def hexWouldIntersectFace (s3 : K) (localX localY hexSideLen : K)
    (faceVertices : List (Vec3 K)) (faceCenter uVec vVec : Vec3 K) : Bool :=
  let worldPos := (faceCenter.add (uVec.multiply localX)).add (vVec.multiply localY)
  let relativePos := worldPos.sub faceCenter
  let uProj := relativePos.dot uVec
  let vProj := relativePos.dot vVec
  let face2dPoints := faceVertices.map
    (fun w => ((w.sub faceCenter).dot uVec, (w.sub faceCenter).dot vVec))
  let hexVs := hexVertices s3 uProj vProj hexSideLen
  (hexVs.any fun hv => pointInPolygon hv.1 hv.2 face2dPoints) ||
  (face2dPoints.any fun fv => pointInPolygon fv.1 fv.2 hexVs) ||
  ((polygonEdges hexVs).any fun he =>
    (polygonEdges face2dPoints).any fun fe =>
      lineSegmentsIntersect he.1 he.2 fe.1 fe.2)

end Geometry2D

section HeightAssigner

variable {K : Type} [LinearOrderedField K] [FloorRing K]

/-- Python `int()` applied to a float: truncation toward zero. -/
def pyInt (x : K) : ℤ := if x < 0 then ⌈x⌉ else ⌊x⌋

/-- The `height_step_size` in `_generate_hex_texture_for_face`:
`height_range / height_steps if height_steps > 1 else 0`. -/
def heightStepSize (d : HoneycombTexture K) : K :=
  if 1 < d.height_steps then
    (d.hex_height_max - d.hex_height_min) / (d.height_steps : K)
  else 0

/-- The height discretization of `_generate_hex_texture_for_face` applied to
one raw sample `randomHeight` (drawn by the source from
`random.uniform(hex_height_min, hex_height_max)`): when `height_steps > 1`,
truncate `(h - hmin) / step` to an integer, clamp to `height_steps - 1`, and
return `hmin + index * step`; otherwise pass the raw sample through. -/
def discretizeHeight (d : HoneycombTexture K) (randomHeight : K) : K :=
  if 1 < d.height_steps then
    d.hex_height_min +
      ((min (pyInt ((randomHeight - d.hex_height_min) / heightStepSize d))
          (d.height_steps - 1) : ℤ) : K) * heightStepSize d
  else randomHeight

/-- The per-candidate sampling loop of `_generate_hex_texture_for_face`,
restricted to the retained candidates: each retained position is paired with
the discretization of the next draw from the ambient random stream
(`random.uniform`, modelled as the stream `draws` consumed in order starting
at index `i`). -/
def assignHeights (d : HoneycombTexture K) :
    List (K × K) → (ℕ → K) → ℕ → List ((K × K) × K)
  | [], _, _ => []
  | p :: ps, draws, i =>
      (p, discretizeHeight d (draws i)) :: assignHeights d ps draws (i + 1)

end HeightAssigner

end DTools

namespace DTools

section Claim2

variable {K : Type} [LinearOrderedField K]

/-- C2: the Face-Intersection Filter `_hex_would_intersect_face` accepts a
candidate hexagon (regular, 6 vertices at angles `k·60°`, circumradius
`hex_side_len`, centered at the candidate's local 2D position, given an
orthonormal face frame `u, v`) if and only if (a) some hexagon vertex lies
inside the face's projected boundary polygon by the ray-casting test, or
(b) some face polygon vertex lies inside the hexagon by the same test, or
(c) some hexagon edge intersects some face boundary edge — where segment
intersection requires the parametric denominator's absolute value to be at
least `1e-10` and both parameters `t, u` in `[0, 1]` (second conjunct). -/
theorem hex_filter_accepts_iff (s3 lx ly r : K) (fvs : List (Vec3 K))
    (c u v : Vec3 K) (hu : u.dot u = 1) (hv : v.dot v = 1) (huv : u.dot v = 0) :
    (hexWouldIntersectFace s3 lx ly r fvs c u v = true ↔
      ((∃ p ∈ hexVertices s3 lx ly r,
          pointInPolygon p.1 p.2
            (fvs.map fun w => ((w.sub c).dot u, (w.sub c).dot v)) = true) ∨
       (∃ q ∈ fvs.map (fun w => ((w.sub c).dot u, (w.sub c).dot v)),
          pointInPolygon q.1 q.2 (hexVertices s3 lx ly r) = true) ∨
       (∃ he ∈ polygonEdges (hexVertices s3 lx ly r),
        ∃ fe ∈ polygonEdges (fvs.map fun w => ((w.sub c).dot u, (w.sub c).dot v)),
          lineSegmentsIntersect he.1 he.2 fe.1 fe.2 = true))) ∧
    (∀ p1 p2 p3 p4 : K × K,
      lineSegmentsIntersect p1 p2 p3 p4 = true ↔
        (1 / 10000000000 ≤
            |(p1.1 - p2.1) * (p3.2 - p4.2) - (p1.2 - p2.2) * (p3.1 - p4.1)| ∧
         0 ≤ ((p1.1 - p3.1) * (p3.2 - p4.2) - (p1.2 - p3.2) * (p3.1 - p4.1)) /
              ((p1.1 - p2.1) * (p3.2 - p4.2) - (p1.2 - p2.2) * (p3.1 - p4.1)) ∧
         ((p1.1 - p3.1) * (p3.2 - p4.2) - (p1.2 - p3.2) * (p3.1 - p4.1)) /
              ((p1.1 - p2.1) * (p3.2 - p4.2) - (p1.2 - p2.2) * (p3.1 - p4.1)) ≤ 1 ∧
         0 ≤ -((p1.1 - p2.1) * (p1.2 - p3.2) - (p1.2 - p2.2) * (p1.1 - p3.1)) /
              ((p1.1 - p2.1) * (p3.2 - p4.2) - (p1.2 - p2.2) * (p3.1 - p4.1)) ∧
         -((p1.1 - p2.1) * (p1.2 - p3.2) - (p1.2 - p2.2) * (p1.1 - p3.1)) /
              ((p1.1 - p2.1) * (p3.2 - p4.2) - (p1.2 - p2.2) * (p3.1 - p4.1)) ≤ 1)) := by
  constructor
  · have hvu : v.dot u = 0 := by rw [Vec3.dot_comm]; exact huv
    have hU : (((c.add (u.multiply lx)).add (v.multiply ly)).sub c).dot u = lx := by
      simp only [Vec3.add, Vec3.sub, Vec3.multiply, Vec3.dot] at hu hvu ⊢
      linear_combination lx * hu + ly * hvu
    have hV : (((c.add (u.multiply lx)).add (v.multiply ly)).sub c).dot v = ly := by
      simp only [Vec3.add, Vec3.sub, Vec3.multiply, Vec3.dot] at hv huv ⊢
      linear_combination lx * huv + ly * hv
    have key : hexWouldIntersectFace s3 lx ly r fvs c u v =
        (((hexVertices s3 lx ly r).any fun p =>
            pointInPolygon p.1 p.2
              (fvs.map fun w => ((w.sub c).dot u, (w.sub c).dot v))) ||
         ((fvs.map fun w => ((w.sub c).dot u, (w.sub c).dot v)).any fun q =>
            pointInPolygon q.1 q.2 (hexVertices s3 lx ly r)) ||
         ((polygonEdges (hexVertices s3 lx ly r)).any fun he =>
            (polygonEdges
                (fvs.map fun w => ((w.sub c).dot u, (w.sub c).dot v))).any fun fe =>
              lineSegmentsIntersect he.1 he.2 fe.1 fe.2)) := by
      show
        (((hexVertices s3
              ((((c.add (u.multiply lx)).add (v.multiply ly)).sub c).dot u)
              ((((c.add (u.multiply lx)).add (v.multiply ly)).sub c).dot v) r).any fun p =>
            pointInPolygon p.1 p.2
              (fvs.map fun w => ((w.sub c).dot u, (w.sub c).dot v))) ||
         ((fvs.map fun w => ((w.sub c).dot u, (w.sub c).dot v)).any fun q =>
            pointInPolygon q.1 q.2 (hexVertices s3
              ((((c.add (u.multiply lx)).add (v.multiply ly)).sub c).dot u)
              ((((c.add (u.multiply lx)).add (v.multiply ly)).sub c).dot v) r)) ||
         ((polygonEdges (hexVertices s3
              ((((c.add (u.multiply lx)).add (v.multiply ly)).sub c).dot u)
              ((((c.add (u.multiply lx)).add (v.multiply ly)).sub c).dot v) r)).any fun he =>
            (polygonEdges
                (fvs.map fun w => ((w.sub c).dot u, (w.sub c).dot v))).any fun fe =>
              lineSegmentsIntersect he.1 he.2 fe.1 fe.2)) = _
      rw [hU, hV]
    rw [key]
    simp only [Bool.or_eq_true, List.any_eq_true, or_assoc]
  · intro p1 p2 p3 p4
    simp only [lineSegmentsIntersect]
    split_ifs with h
    · rw [pyAbs_eq_abs] at h
      simp only [Bool.false_eq_true, false_iff, not_and]
      intro hle
      exact absurd hle (not_le.mpr h)
    · rw [pyAbs_eq_abs] at h
      simp only [decide_eq_true_eq]
      constructor
      · rintro ⟨ht0, ht1, hu0, hu1⟩
        exact ⟨not_lt.mp h, ht0, ht1, hu0, hu1⟩
      · rintro ⟨_, ht0, ht1, hu0, hu1⟩
        exact ⟨ht0, ht1, hu0, hu1⟩

/-- Witness for `hex_filter_accepts_iff`: a concrete hexagon of circumradius 1
at the origin of a 20×20 square face is accepted through branch (a). -/
theorem hex_filter_accepts_iff_witness :
    hexWouldIntersectFace (7/4 : ℚ) 0 0 1
      [⟨10,-10,0⟩, ⟨10,10,0⟩, ⟨-10,10,0⟩, ⟨-10,-10,0⟩]
      ⟨0,0,0⟩ ⟨1,0,0⟩ ⟨0,1,0⟩ = true := by
  have h := (hex_filter_accepts_iff (7/4 : ℚ) 0 0 1
      [⟨10,-10,0⟩, ⟨10,10,0⟩, ⟨-10,10,0⟩, ⟨-10,-10,0⟩]
      ⟨0,0,0⟩ ⟨1,0,0⟩ ⟨0,1,0⟩
      (by norm_num [Vec3.dot]) (by norm_num [Vec3.dot]) (by norm_num [Vec3.dot])).1
  refine h.mpr (Or.inl ⟨((1 : ℚ), 0), by norm_num [hexVertices], ?_⟩)
  norm_num [pointInPolygon, pointInPolygonAux, pipFlips, Vec3.sub, Vec3.dot,
    min_def, max_def]

end Claim2

end DTools

namespace DTools

/-- The vertex list produced by the loop
`for i in range(6): angle = i * math.pi / 3` of `_hex_would_intersect_face`
coincides, at `K = ℝ` with `s3 = √3`, with the closed form used by
`hexVertices`. -/
theorem hexVertices_sqrt3 (cx cy r : ℝ) :
    hexVertices (Real.sqrt 3) cx cy r =
      [(cx + r * Real.cos (0 * Real.pi / 3), cy + r * Real.sin (0 * Real.pi / 3)),
       (cx + r * Real.cos (1 * Real.pi / 3), cy + r * Real.sin (1 * Real.pi / 3)),
       (cx + r * Real.cos (2 * Real.pi / 3), cy + r * Real.sin (2 * Real.pi / 3)),
       (cx + r * Real.cos (3 * Real.pi / 3), cy + r * Real.sin (3 * Real.pi / 3)),
       (cx + r * Real.cos (4 * Real.pi / 3), cy + r * Real.sin (4 * Real.pi / 3)),
       (cx + r * Real.cos (5 * Real.pi / 3), cy + r * Real.sin (5 * Real.pi / 3))] := by
  have e0 : (0 : ℝ) * Real.pi / 3 = 0 := by ring
  have e1 : (1 : ℝ) * Real.pi / 3 = Real.pi / 3 := by ring
  have e2 : (2 : ℝ) * Real.pi / 3 = Real.pi - Real.pi / 3 := by ring
  have e3 : (3 : ℝ) * Real.pi / 3 = Real.pi := by ring
  have e4 : (4 : ℝ) * Real.pi / 3 = Real.pi / 3 + Real.pi := by ring
  have e5 : (5 : ℝ) * Real.pi / 3 = Real.pi - Real.pi / 3 + Real.pi := by ring
  rw [e0, e1, e2, e3, e4, e5, Real.cos_zero, Real.sin_zero, Real.cos_pi, Real.sin_pi,
    Real.cos_add_pi, Real.sin_add_pi, Real.cos_pi_sub, Real.sin_pi_sub,
    Real.cos_pi_div_three, Real.sin_pi_div_three]
  simp only [hexVertices, List.cons.injEq, Prod.mk.injEq, and_true]
  norm_num

end DTools

namespace DTools

namespace Vec3

/-- Vector magnitude as computed in `_get_face_coordinate_system`:
`math.sqrt(x**2 + y**2 + z**2)`. -/
noncomputable def magnitude (v : Vec3 ℝ) : ℝ := Real.sqrt (v.x ^ 2 + v.y ^ 2 + v.z ^ 2)

/-- Kernel `cq.Vector.normalized()`: scale to unit length (kernel primitive, modelled
mathematically as division by the magnitude). -/
noncomputable def normalizedR (v : Vec3 ℝ) : Vec3 ℝ :=
  ⟨v.x / v.magnitude, v.y / v.magnitude, v.z / v.magnitude⟩

theorem magnitude_eq_sqrt_dot (v : Vec3 ℝ) : v.magnitude = Real.sqrt (v.dot v) := by
  unfold magnitude dot
  congr 1
  ring

theorem magnitude_nonneg (v : Vec3 ℝ) : 0 ≤ v.magnitude := Real.sqrt_nonneg _

theorem magnitude_sq (v : Vec3 ℝ) : v.magnitude ^ 2 = v.dot v := by
  rw [magnitude_eq_sqrt_dot, Real.sq_sqrt]
  unfold dot
  nlinarith [sq_nonneg v.x, sq_nonneg v.y, sq_nonneg v.z]

theorem magnitude_eq_one_iff_dot (v : Vec3 ℝ) : v.magnitude = 1 ↔ v.dot v = 1 := by
  constructor
  · intro h
    rw [← magnitude_sq, h]
    norm_num
  · intro h
    rw [magnitude_eq_sqrt_dot, h, Real.sqrt_one]

theorem normalizedR_dot (v a : Vec3 ℝ) :
    v.normalizedR.dot a = v.dot a / v.magnitude := by
  unfold normalizedR dot
  ring

theorem dot_normalizedR (a v : Vec3 ℝ) :
    a.dot v.normalizedR = a.dot v / v.magnitude := by
  unfold normalizedR dot
  ring

theorem normalizedR_magnitude_one (v : Vec3 ℝ) (h : v.magnitude ≠ 0) :
    v.normalizedR.magnitude = 1 := by
  rw [magnitude_eq_one_iff_dot]
  have h2 : v.normalizedR.dot v.normalizedR = v.dot v / v.magnitude ^ 2 := by
    unfold normalizedR dot
    ring
  rw [h2, ← magnitude_sq, div_self (pow_ne_zero 2 h)]

theorem normalizedR_of_magnitude_one (v : Vec3 ℝ) (h : v.magnitude = 1) :
    v.normalizedR = v := by
  unfold normalizedR
  rw [h]
  simp

end Vec3

/-- The reference-axis search loop of `_get_face_coordinate_system`: try
`X`, then `Y`, then `Z`; accept the first axis whose cross product with the
(already normalized) normal has magnitude above `1e-6`, returning that cross
product normalized; `none` models the `ValueError` raised when every axis
fails. -/
noncomputable def findReferenceU (normal : Vec3 ℝ) : Option (Vec3 ℝ) :=
  if (normal.cross ⟨1,0,0⟩).magnitude > 1/1000000 then
    some (normal.cross ⟨1,0,0⟩).normalizedR
  else if (normal.cross ⟨0,1,0⟩).magnitude > 1/1000000 then
    some (normal.cross ⟨0,1,0⟩).normalizedR
  else if (normal.cross ⟨0,0,1⟩).magnitude > 1/1000000 then
    some (normal.cross ⟨0,0,1⟩).normalizedR
  else none

/-- The optional in-plane rotation of `_get_face_coordinate_system`: when
`abs(rotation_degrees) > 1e-6`, rotate `u, v` jointly about the normal
(`u' = u·cosθ + v·sinθ`, `v' = -u·sinθ + v·cosθ`, `θ = radians(degrees)`)
and re-normalize; otherwise return them unchanged. -/
noncomputable def applyRotation (u v : Vec3 ℝ) (rotationDegrees : ℝ) :
    Vec3 ℝ × Vec3 ℝ :=
  if pyAbs rotationDegrees > 1/1000000 then
    (((u.multiply (Real.cos (rotationDegrees * Real.pi / 180))).add
        (v.multiply (Real.sin (rotationDegrees * Real.pi / 180)))).normalizedR,
     ((u.multiply (-Real.sin (rotationDegrees * Real.pi / 180))).add
        (v.multiply (Real.cos (rotationDegrees * Real.pi / 180)))).normalizedR)
  else (u, v)

/-- Source `_get_face_coordinate_system(face_normal, details)` (the rotation angle is
the only field of `details` it reads): normalize the normal, find `u` via the
reference-axis loop, set `v = normalize(cross(normal, u))`, apply the optional
rotation.  `none` models the defensive `ValueError`. -/
noncomputable def getFaceCoordinateSystem (faceNormal : Vec3 ℝ)
    (rotationDegrees : ℝ) : Option (Vec3 ℝ × Vec3 ℝ) :=
  match findReferenceU faceNormal.normalizedR with
  | none => none
  | some u =>
      some (applyRotation u
        ((faceNormal.normalizedR.cross u).normalizedR) rotationDegrees)

end DTools

namespace DTools

/-- Properties of the unrotated frame built from an accepted cross product
`w = cross(normal, reference)`: normalizing `w` gives a unit `u` orthogonal to
the normal, and `v = normalize(cross(normal, u))` is a unit vector orthogonal
to both. -/
theorem frame_props (n w : Vec3 ℝ) (hnd : n.dot n = 1) (hwn : w.dot n = 0)
    (hm : 0 < w.magnitude) :
    (w.normalizedR).magnitude = 1 ∧
    ((n.cross w.normalizedR).normalizedR).magnitude = 1 ∧
    (w.normalizedR).dot n = 0 ∧
    ((n.cross w.normalizedR).normalizedR).dot n = 0 ∧
    (w.normalizedR).dot ((n.cross w.normalizedR).normalizedR) = 0 := by
  have hmne : w.magnitude ≠ 0 := ne_of_gt hm
  have hu_mag : (w.normalizedR).magnitude = 1 := Vec3.normalizedR_magnitude_one w hmne
  have hu_dot : (w.normalizedR).dot (w.normalizedR) = 1 :=
    (Vec3.magnitude_eq_one_iff_dot _).mp hu_mag
  have hun : (w.normalizedR).dot n = 0 := by
    rw [Vec3.normalizedR_dot, hwn, zero_div]
  have hnu : n.dot (w.normalizedR) = 0 := by rw [Vec3.dot_comm]; exact hun
  have hcross_dot : (n.cross w.normalizedR).dot (n.cross w.normalizedR) = 1 := by
    rw [Vec3.dot_cross_self, hnd, hu_dot, hnu]
    ring
  have hcross_mag : (n.cross w.normalizedR).magnitude = 1 :=
    (Vec3.magnitude_eq_one_iff_dot _).mpr hcross_dot
  have hveq : (n.cross w.normalizedR).normalizedR = n.cross w.normalizedR :=
    Vec3.normalizedR_of_magnitude_one _ hcross_mag
  refine ⟨hu_mag, ?_, hun, ?_, ?_⟩
  · rw [hveq]; exact hcross_mag
  · rw [hveq]; exact Vec3.cross_dot_left n _
  · rw [hveq, Vec3.dot_comm]; exact Vec3.cross_dot_right n _

/-- The optional joint rotation about the normal preserves orthonormality of
the frame and orthogonality to the normal. -/
theorem applyRotation_props (u v n : Vec3 ℝ) (deg : ℝ)
    (hu : u.magnitude = 1) (hv : v.magnitude = 1)
    (hun : u.dot n = 0) (hvn : v.dot n = 0) (huv : u.dot v = 0) :
    (applyRotation u v deg).1.magnitude = 1 ∧
    (applyRotation u v deg).2.magnitude = 1 ∧
    (applyRotation u v deg).1.dot n = 0 ∧
    (applyRotation u v deg).2.dot n = 0 ∧
    (applyRotation u v deg).1.dot (applyRotation u v deg).2 = 0 := by
  unfold applyRotation
  split_ifs with hrot
  · have huu : u.dot u = 1 := (Vec3.magnitude_eq_one_iff_dot _).mp hu
    have hvv : v.dot v = 1 := (Vec3.magnitude_eq_one_iff_dot _).mp hv
    set c := Real.cos (deg * Real.pi / 180) with hc
    set s := Real.sin (deg * Real.pi / 180) with hs
    have hcs : s ^ 2 + c ^ 2 = 1 := Real.sin_sq_add_cos_sq _
    have hrudot : ((u.multiply c).add (v.multiply s)).dot
        ((u.multiply c).add (v.multiply s)) = 1 := by
      simp only [Vec3.dot, Vec3.add, Vec3.multiply] at huu hvv huv ⊢
      linear_combination c ^ 2 * huu + (2 * c * s) * huv + s ^ 2 * hvv + hcs
    have hrvdot : ((u.multiply (-s)).add (v.multiply c)).dot
        ((u.multiply (-s)).add (v.multiply c)) = 1 := by
      simp only [Vec3.dot, Vec3.add, Vec3.multiply] at huu hvv huv ⊢
      linear_combination s ^ 2 * huu - (2 * c * s) * huv + c ^ 2 * hvv + hcs
    have hru_mag : ((u.multiply c).add (v.multiply s)).magnitude = 1 :=
      (Vec3.magnitude_eq_one_iff_dot _).mpr hrudot
    have hrv_mag : ((u.multiply (-s)).add (v.multiply c)).magnitude = 1 :=
      (Vec3.magnitude_eq_one_iff_dot _).mpr hrvdot
    have hru_eq := Vec3.normalizedR_of_magnitude_one _ hru_mag
    have hrv_eq := Vec3.normalizedR_of_magnitude_one _ hrv_mag
    rw [hru_eq, hrv_eq]
    refine ⟨hru_mag, hrv_mag, ?_, ?_, ?_⟩
    · simp only [Vec3.dot, Vec3.add, Vec3.multiply] at hun hvn ⊢
      linear_combination c * hun + s * hvn
    · simp only [Vec3.dot, Vec3.add, Vec3.multiply] at hun hvn ⊢
      linear_combination (-s) * hun + c * hvn
    · simp only [Vec3.dot, Vec3.add, Vec3.multiply] at huu hvv huv ⊢
      linear_combination (c * s) * hvv - (c * s) * huu + (c ^ 2 - s ^ 2) * huv
  · exact ⟨hu, hv, hun, hvn, huv⟩

/-- C4: for every unit face normal and every rotation angle, the Face
Coordinate Frame Builder `_get_face_coordinate_system` succeeds (it returns
`some`, i.e. the defensive `ValueError` for "all three reference axes failed"
is never raised for a unit normal) and returns two unit vectors orthogonal to
each other and to the normal, also after the optional joint rotation about the
normal.  The reference axes X, Y, Z are tried in that fixed order and the
first whose cross product with the normal has magnitude above `1e-6` is used
(this is the definition of `findReferenceU`). -/
theorem face_frame_orthonormal (n : Vec3 ℝ) (rot : ℝ) (hn : n.magnitude = 1) :
    ∃ u v, getFaceCoordinateSystem n rot = some (u, v) ∧
      u.magnitude = 1 ∧ v.magnitude = 1 ∧
      u.dot n = 0 ∧ v.dot n = 0 ∧ u.dot v = 0 := by
  have hnn : n.normalizedR = n := Vec3.normalizedR_of_magnitude_one n hn
  have hnd : n.dot n = 1 := (Vec3.magnitude_eq_one_iff_dot n).mp hn
  have build : ∀ w : Vec3 ℝ, w.dot n = 0 → 1/1000000 < w.magnitude →
      ∀ uvp : Vec3 ℝ × Vec3 ℝ,
        uvp = applyRotation w.normalizedR ((n.cross w.normalizedR).normalizedR) rot →
        uvp.1.magnitude = 1 ∧ uvp.2.magnitude = 1 ∧
        uvp.1.dot n = 0 ∧ uvp.2.dot n = 0 ∧ uvp.1.dot uvp.2 = 0 := by
    intro w hwn hm uvp huvp
    obtain ⟨h1, h2, h3, h4, h5⟩ :=
      frame_props n w hnd hwn (lt_trans (by norm_num) hm)
    obtain ⟨g1, g2, g3, g4, g5⟩ :=
      applyRotation_props w.normalizedR ((n.cross w.normalizedR).normalizedR) n rot
        h1 h2 h3 h4 h5
    rw [huvp]
    exact ⟨g1, g2, g3, g4, g5⟩
  by_cases h1 : (n.cross ⟨1,0,0⟩).magnitude > 1/1000000
  · obtain ⟨g1, g2, g3, g4, g5⟩ :=
      build (n.cross ⟨1,0,0⟩) (Vec3.cross_dot_left n _) h1 _ rfl
    refine ⟨_, _, ?_, g1, g2, g3, g4, g5⟩
    show getFaceCoordinateSystem n rot = _
    unfold getFaceCoordinateSystem findReferenceU
    rw [hnn, if_pos h1]
  · by_cases h2 : (n.cross ⟨0,1,0⟩).magnitude > 1/1000000
    · obtain ⟨g1, g2, g3, g4, g5⟩ :=
        build (n.cross ⟨0,1,0⟩) (Vec3.cross_dot_left n _) h2 _ rfl
      refine ⟨_, _, ?_, g1, g2, g3, g4, g5⟩
      show getFaceCoordinateSystem n rot = _
      unfold getFaceCoordinateSystem findReferenceU
      rw [hnn, if_neg h1, if_pos h2]
    · by_cases h3 : (n.cross ⟨0,0,1⟩).magnitude > 1/1000000
      · obtain ⟨g1, g2, g3, g4, g5⟩ :=
          build (n.cross ⟨0,0,1⟩) (Vec3.cross_dot_left n _) h3 _ rfl
        refine ⟨_, _, ?_, g1, g2, g3, g4, g5⟩
        show getFaceCoordinateSystem n rot = _
        unfold getFaceCoordinateSystem findReferenceU
        rw [hnn, if_neg h1, if_neg h2, if_pos h3]
      · exfalso
        push_neg at h1 h2 h3
        have e1 : (n.cross ⟨1,0,0⟩).magnitude ^ 2 = n.y ^ 2 + n.z ^ 2 := by
          rw [Vec3.magnitude_sq]
          simp only [Vec3.dot, Vec3.cross]
          ring
        have e2 : (n.cross ⟨0,1,0⟩).magnitude ^ 2 = n.x ^ 2 + n.z ^ 2 := by
          rw [Vec3.magnitude_sq]
          simp only [Vec3.dot, Vec3.cross]
          ring
        have e3 : (n.cross ⟨0,0,1⟩).magnitude ^ 2 = n.x ^ 2 + n.y ^ 2 := by
          rw [Vec3.magnitude_sq]
          simp only [Vec3.dot, Vec3.cross]
          ring
        have hsum : n.x ^ 2 + n.y ^ 2 + n.z ^ 2 = 1 := by
          have := hnd
          simp only [Vec3.dot] at this
          nlinarith [this]
        nlinarith [e1, e2, e3, hsum, h1, h2, h3,
          Vec3.magnitude_nonneg (n.cross ⟨1,0,0⟩),
          Vec3.magnitude_nonneg (n.cross ⟨0,1,0⟩),
          Vec3.magnitude_nonneg (n.cross ⟨0,0,1⟩)]

/-- Witness for `face_frame_orthonormal`: the unit normal `(0, 0, 1)` with
zero rotation. -/
theorem face_frame_orthonormal_witness :
    Vec3.magnitude ⟨0, 0, 1⟩ = 1 ∧
    ∃ u v, getFaceCoordinateSystem ⟨0, 0, 1⟩ 0 = some (u, v) ∧
      u.magnitude = 1 ∧ v.magnitude = 1 ∧
      u.dot ⟨0, 0, 1⟩ = 0 ∧ v.dot ⟨0, 0, 1⟩ = 0 ∧ u.dot v = 0 := by
  have hm : Vec3.magnitude (⟨0, 0, 1⟩ : Vec3 ℝ) = 1 := by
    unfold Vec3.magnitude
    norm_num
  exact ⟨hm, face_frame_orthonormal ⟨0, 0, 1⟩ 0 hm⟩

end DTools

namespace DTools

/-- C3: for every retained hexagon, given the raw height sample drawn from
`Uniform(hex_height_min, hex_height_max)` (hence lying in the closed
interval), when `height_steps > 1` the assigned height equals
`hmin + k·(hmax − hmin)/height_steps` with
`k = floor((height − hmin)/step_width)` clamped to at most
`height_steps − 1`, so `k` lies in `[0, height_steps − 1]`; when
`height_steps ≤ 1` the raw sample is returned unquantized. -/
theorem height_discretization (d : HoneycombTexture ℚ) (h : ℚ)
    (hlo : d.hex_height_min ≤ h) (hhi : h ≤ d.hex_height_max)
    (hrange : d.hex_height_min < d.hex_height_max) :
    (1 < d.height_steps →
      ∃ k : ℤ, 0 ≤ k ∧ k ≤ d.height_steps - 1 ∧
        k = min ⌊(h - d.hex_height_min) /
              ((d.hex_height_max - d.hex_height_min) / (d.height_steps : ℚ))⌋
            (d.height_steps - 1) ∧
        discretizeHeight d h = d.hex_height_min +
          (k : ℚ) * ((d.hex_height_max - d.hex_height_min) / (d.height_steps : ℚ))) ∧
    (d.height_steps ≤ 1 → discretizeHeight d h = h) := by
  constructor
  · intro hs
    have hstep : heightStepSize d =
        (d.hex_height_max - d.hex_height_min) / (d.height_steps : ℚ) := by
      rw [heightStepSize, if_pos hs]
    have hsQ : (0 : ℚ) < (d.height_steps : ℚ) := by
      exact_mod_cast (by omega : (0 : ℤ) < d.height_steps)
    have hstep_pos :
        0 < (d.hex_height_max - d.hex_height_min) / (d.height_steps : ℚ) :=
      div_pos (by linarith) hsQ
    have hraw_nonneg : 0 ≤ (h - d.hex_height_min) /
        ((d.hex_height_max - d.hex_height_min) / (d.height_steps : ℚ)) :=
      div_nonneg (by linarith) (le_of_lt hstep_pos)
    have hpy : pyInt ((h - d.hex_height_min) / heightStepSize d) =
        ⌊(h - d.hex_height_min) /
          ((d.hex_height_max - d.hex_height_min) / (d.height_steps : ℚ))⌋ := by
      rw [hstep, pyInt, if_neg (not_lt.mpr hraw_nonneg)]
    refine ⟨min ⌊(h - d.hex_height_min) /
        ((d.hex_height_max - d.hex_height_min) / (d.height_steps : ℚ))⌋
        (d.height_steps - 1), ?_, min_le_right _ _, rfl, ?_⟩
    · exact le_min (Int.floor_nonneg.mpr hraw_nonneg) (by omega)
    · rw [discretizeHeight, if_pos hs, hpy, hstep]
  · intro hs
    rw [discretizeHeight, if_neg (not_lt.mpr hs)]

/-- Witness for `height_discretization`: spec `hmin = 0`, `hmax = 10`,
`height_steps = 5`, raw sample `3`. -/
theorem height_discretization_witness :
    ∃ k : ℤ, 0 ≤ k ∧ k ≤ (5 : ℤ) - 1 ∧
      discretizeHeight (⟨1, 0, 10, 5, 0, 1⟩ : HoneycombTexture ℚ) 3 =
        0 + (k : ℚ) * ((10 - 0) / (((5 : ℤ) : ℤ) : ℚ)) := by
  obtain ⟨k, hk0, hk1, _, heq⟩ :=
    (height_discretization (⟨1, 0, 10, 5, 0, 1⟩ : HoneycombTexture ℚ) 3
      (by norm_num) (by norm_num) (by norm_num)).1 (by norm_num)
  exact ⟨k, hk0, hk1, heq⟩

/-- Modelled from the spec: the live texture module `dtools/texture/hex.py`
(imported by `dtools/texture/__init__.py`, but its source is not present;
its callers pass `random_seed=42` and `random_seed=123432`) extends the
texture spec with an optional `random_seed`. -/
structure SeededHoneycombTexture (K : Type) where
  base : HoneycombTexture K
  random_seed : Option ℕ

/-- Modelled from the spec: "Randomness is seeded once per texture spec when a
seed is provided, for reproducibility; unseeded runs are non-deterministic by
design."  `prng seed` is the deterministic draw stream obtained by seeding the
random generator once with `seed`; an unseeded spec consumes the ambient
global stream.  The per-hexagon sampling itself follows
`_generate_hex_texture_for_face` (`assignHeights`). -/
def textureRunPairs {K : Type} [LinearOrderedField K] [FloorRing K]
    (prng : ℕ → ℕ → K) (ambient : ℕ → K)
    (d : SeededHoneycombTexture K) (positions : List (K × K)) :
    List ((K × K) × K) :=
  assignHeights d.base positions
    (match d.random_seed with
     | some seed => prng seed
     | none => ambient) 0

/-- C1: when a random seed is provided in the texture spec, randomness is
seeded once per texture spec, so two independent runs of the texture pipeline
over the same face and the same spec (differing only in the ambient random
state) produce identical lists of (position, height) pairs; unseeded runs are
non-deterministic: there are ambient streams under which the same face and
spec yield different pairs. -/
theorem seeded_texture_reproducible :
    (∀ (prng : ℕ → ℕ → ℚ) (d : SeededHoneycombTexture ℚ)
        (positions : List (ℚ × ℚ)) (seed : ℕ),
      d.random_seed = some seed →
      ∀ ambient1 ambient2 : ℕ → ℚ,
        textureRunPairs prng ambient1 d positions =
          textureRunPairs prng ambient2 d positions) ∧
    (∃ (d : SeededHoneycombTexture ℚ) (positions : List (ℚ × ℚ))
        (prng : ℕ → ℕ → ℚ) (ambient1 ambient2 : ℕ → ℚ),
      d.random_seed = none ∧
        textureRunPairs prng ambient1 d positions ≠
          textureRunPairs prng ambient2 d positions) := by
  constructor
  · intro prng d positions seed hseed ambient1 ambient2
    simp only [textureRunPairs, hseed]
  · refine ⟨⟨⟨1, 0, 10, 1, 0, 1⟩, none⟩, [(0, 0)], fun _ _ => 0,
      fun _ => 3, fun _ => 4, rfl, ?_⟩
    simp only [textureRunPairs, assignHeights, discretizeHeight]
    norm_num

/-- Witness for `seeded_texture_reproducible`: a concrete seeded spec is
reproducible across two distinct ambient streams. -/
theorem seeded_texture_reproducible_witness :
    (⟨⟨1, 0, 10, 1, 0, 1⟩, some 42⟩ : SeededHoneycombTexture ℚ).random_seed =
        some 42 ∧
      textureRunPairs (fun _ _ => 5) (fun _ => 3)
          (⟨⟨1, 0, 10, 1, 0, 1⟩, some 42⟩ : SeededHoneycombTexture ℚ) [(0, 0)] =
        textureRunPairs (fun _ _ => 5) (fun _ => 4)
          (⟨⟨1, 0, 10, 1, 0, 1⟩, some 42⟩ : SeededHoneycombTexture ℚ) [(0, 0)] :=
  ⟨rfl, seeded_texture_reproducible.1 (fun _ _ => 5)
    ⟨⟨1, 0, 10, 1, 0, 1⟩, some 42⟩ [(0, 0)] 42 rfl (fun _ => 3) (fun _ => 4)⟩

end DTools

namespace DTools

/-- Python's `min` over a list (the source applies it to the projected vertex
coordinates; a face boundary always has at least one vertex — the `[]` case,
on which Python would raise, is given the junk value 0). -/
def listMin {K : Type} [LinearOrderedField K] : List K → K
  | [] => 0
  | x :: xs => xs.foldl min x

/-- Python's `max` over a list (same conventions as `listMin`). -/
def listMax {K : Type} [LinearOrderedField K] : List K → K
  | [] => 0
  | x :: xs => xs.foldl max x

/-- The projections of the face boundary vertices onto one frame axis, as in
`_generate_hex_texture_for_face`: `(vertex_pos - face_center).dot(axis)`. -/
def projCoords {K : Type} [LinearOrderedField K]
    (fvs : List (Vec3 K)) (center axis : Vec3 K) : List K :=
  fvs.map fun w => (w.sub center).dot axis

/-- The face's projected bounding extent along one axis:
`max(coords) - min(coords)` (`face_width` / `face_height` in the source). -/
def projExtent {K : Type} [LinearOrderedField K]
    (fvs : List (Vec3 K)) (center axis : Vec3 K) : K :=
  listMax (projCoords fvs center axis) - listMin (projCoords fvs center axis)

/-- Source `x_spacing = hex_side_len * math.sqrt(3)`, then `*= spacing_coefficient`. -/
noncomputable def xSpacing (d : HoneycombTexture ℝ) : ℝ :=
  d.hex_side_len * Real.sqrt 3 * d.spacing_coefficient

/-- Source `y_spacing = hex_side_len * 0.5`, then `*= spacing_coefficient`. -/
def ySpacing (d : HoneycombTexture ℝ) : ℝ :=
  d.hex_side_len * 0.5 * d.spacing_coefficient

/-- The candidate grid enumerated by `_generate_hex_texture_for_face`:
`cols = int(ceil(face_width / x_spacing)) + 1`,
`rows = int(ceil(face_height / y_spacing)) + 1`, and for each `(row, col)`
the local position `(col*x_spacing - face_width/2 (+ x_spacing/2 on odd rows),
row*y_spacing - face_height/2)`.  (`Python range(n)` is empty for `n ≤ 0`,
matching `Int.toNat`.) -/
noncomputable def hexGridCandidates (d : HoneycombTexture ℝ)
    (fvs : List (Vec3 ℝ)) (center uVec vVec : Vec3 ℝ) : List (ℝ × ℝ) :=
  (List.range (⌈projExtent fvs center vVec / ySpacing d⌉ + 1).toNat).flatMap
    fun (row : ℕ) =>
      (List.range (⌈projExtent fvs center uVec / xSpacing d⌉ + 1).toNat).map
      fun (col : ℕ) =>
        ((col : ℝ) * xSpacing d - projExtent fvs center uVec / 2 +
            (if row % 2 = 1 then xSpacing d / 2 else 0),
         (row : ℝ) * ySpacing d - projExtent fvs center vVec / 2)

/-- C7: the Hex Grid Enumerator uses
`x_spacing = hex_side_len·√3·spacing_coefficient` and
`y_spacing = hex_side_len·0.5·spacing_coefficient`, enumerates
`cols = ceil(face_width/x_spacing)+1` columns and
`rows = ceil(face_height/y_spacing)+1` rows over the projected bounding
extent of the face's boundary vertices, and places the candidate of indices
`(row, col)` at `local_x = col·x_spacing − face_width/2` (plus an extra
`x_spacing/2` when the row index is odd) and
`local_y = row·y_spacing − face_height/2`. -/
theorem hex_grid_enumeration (d : HoneycombTexture ℝ) (fvs : List (Vec3 ℝ))
    (c u v : Vec3 ℝ) (x y : ℝ) :
    (x, y) ∈ hexGridCandidates d fvs c u v ↔
      ∃ row col : ℕ,
        (row : ℤ) <
          ⌈projExtent fvs c v / (d.hex_side_len * 0.5 * d.spacing_coefficient)⌉ + 1 ∧
        (col : ℤ) <
          ⌈projExtent fvs c u /
              (d.hex_side_len * Real.sqrt 3 * d.spacing_coefficient)⌉ + 1 ∧
        x = (col : ℝ) * (d.hex_side_len * Real.sqrt 3 * d.spacing_coefficient) -
              projExtent fvs c u / 2 +
            (if row % 2 = 1 then
              (d.hex_side_len * Real.sqrt 3 * d.spacing_coefficient) / 2 else 0) ∧
        y = (row : ℝ) * (d.hex_side_len * 0.5 * d.spacing_coefficient) -
              projExtent fvs c v / 2 := by
  rw [hexGridCandidates, List.mem_flatMap]
  constructor
  · rintro ⟨row, hrow, hmem⟩
    rw [List.mem_map] at hmem
    obtain ⟨col, hcol, heq⟩ := hmem
    rw [List.mem_range, Int.lt_toNat] at hrow hcol
    refine ⟨row, col, hrow, hcol, ?_, ?_⟩
    · have h1 := congrArg Prod.fst heq
      simpa [xSpacing] using h1.symm
    · have h2 := congrArg Prod.snd heq
      simpa [ySpacing] using h2.symm
  · rintro ⟨row, col, hrow, hcol, hx, hy⟩
    refine ⟨row, ?_, ?_⟩
    · rw [List.mem_range, Int.lt_toNat]
      exact hrow
    · rw [List.mem_map]
      refine ⟨col, ?_, ?_⟩
      · rw [List.mem_range, Int.lt_toNat]
        exact hcol
      · rw [Prod.ext_iff]
        constructor
        · simp only [xSpacing]
          exact hx.symm
        · simp only [ySpacing]
          exact hy.symm

end DTools

namespace DTools

section TileUnion

variable {α : Type}

/-- The batch slices `current_tiles[i : i+batch_size]` for
`i = 0, batch_size, 2·batch_size, ...` taken by `union_tiles_hierarchical`.
Python's `range` requires a positive step, so `b ≥ 1` throughout. -/
def pyChunks (b : ℕ) : List α → List (List α)
  | [] => []
  | x :: xs => (x :: xs).take b :: pyChunks b (xs.drop (b - 1))
  termination_by l => l.length
  decreasing_by simp [List.length_drop]; omega

/-- Sequential union of one batch: start from `batch[0]` and fold `union`
over `batch[1:]` (the source's `len(batch) == 1` shortcut coincides with the
fold over an empty tail).  Batches produced by `pyChunks` are never empty;
`[]` is mapped to the `empty` placeholder. -/
def unionBatch (union : α → α → α) (empty : α) : List α → α
  | [] => empty
  | x :: xs => xs.foldl union x

/-- One iteration of the `while` loop of `union_tiles_hierarchical`: replace
the tile list by the per-batch unions. -/
def unionLevel (union : α → α → α) (empty : α) (b : ℕ) (ts : List α) : List α :=
  (pyChunks b ts).map (unionBatch union empty)

/-- The `while len(current_tiles) > 1` loop, fuelled.  The fuel
`tiles.length` given to it by `union_tiles_hierarchical` is sufficient for
`batch_size ≥ 2` (each level strictly shrinks the list,
the termination analysis below); the unbounded loop itself is `levelIter`. -/
def unionLevels (union : α → α → α) (empty : α) (b : ℕ) :
    ℕ → List α → List α
  | 0, ts => ts
  | fuel + 1, ts =>
      if ts.length ≤ 1 then ts
      else unionLevels union empty b fuel (unionLevel union empty b ts)

/-- Source `union_tiles_hierarchical(tiles, batch_size)` from
`src/dtools/img_tools.py`: zero tiles return the empty workplane
(`cq.Workplane("XY")`, the `empty` parameter), one tile is returned
unchanged, otherwise the levels are iterated until one solid remains and
`current_tiles[0]` is returned.  The solids and the kernel's boolean `union`
are opaque, hence the type and operation parameters. -/
def union_tiles_hierarchical (union : α → α → α) (empty : α)
    (tiles : List α) (batch_size : ℕ) : α :=
  match tiles with
  | [] => empty
  | [t] => t
  | t :: ts =>
      match unionLevels union empty batch_size (t :: ts).length (t :: ts) with
      | [] => empty
      | x :: _ => x

/-- The state of `current_tiles` after `k` iterations of the `while` body
(used to analyse termination of the loop). -/
def levelIter (union : α → α → α) (empty : α) (b : ℕ) :
    ℕ → List α → List α
  | 0, ts => ts
  | k + 1, ts => levelIter union empty b k (unionLevel union empty b ts)

theorem pyChunks_length (b : ℕ) (hb : 1 ≤ b) :
    ∀ (n : ℕ) (l : List α), l.length ≤ n →
      (pyChunks b l).length = (l.length + b - 1) / b := by
  intro n
  induction n with
  | zero =>
      intro l hl
      have hnil : l = [] := List.eq_nil_of_length_eq_zero (Nat.le_zero.mp hl)
      subst hnil
      rw [pyChunks]
      simp only [List.length_nil, Nat.zero_add]
      rw [Nat.div_eq_of_lt (by omega)]
  | succ n ih =>
      intro l hl
      match l with
      | [] =>
          rw [pyChunks]
          simp only [List.length_nil, Nat.zero_add]
          rw [Nat.div_eq_of_lt (by omega)]
      | x :: xs =>
          rw [pyChunks]
          simp only [List.length_cons]
          have hd : (xs.drop (b - 1)).length ≤ n := by
            simp only [List.length_drop]
            simp only [List.length_cons] at hl
            omega
          rw [ih (xs.drop (b - 1)) hd, List.length_drop]
          rcases le_or_lt (b - 1) xs.length with hle | hlt
          · have h1 : xs.length - (b - 1) + b - 1 = xs.length := by omega
            have h2 : xs.length + 1 + b - 1 = xs.length + b := by omega
            rw [h1, h2, Nat.add_div_right _ (by omega : 0 < b)]
          · have h1 : xs.length - (b - 1) = 0 := by omega
            have h2 : xs.length + 1 + b - 1 = xs.length + b := by omega
            rw [h1, h2, Nat.add_div_right _ (by omega : 0 < b),
              Nat.div_eq_of_lt (by omega : 0 + b - 1 < b),
              Nat.div_eq_of_lt (by omega : xs.length < b)]

theorem unionLevel_length (union : α → α → α) (empty : α) (b : ℕ)
    (hb : 1 ≤ b) (ts : List α) :
    (unionLevel union empty b ts).length = (ts.length + b - 1) / b := by
  rw [unionLevel, List.length_map]
  exact pyChunks_length b hb ts.length ts le_rfl

theorem unionLevel_length_lt (union : α → α → α) (empty : α) (b : ℕ)
    (hb : 2 ≤ b) (ts : List α) (hts : 2 ≤ ts.length) :
    (unionLevel union empty b ts).length < ts.length := by
  rw [unionLevel_length union empty b (by omega) ts]
  rw [Nat.div_lt_iff_lt_mul (by omega : 0 < b)]
  have h1 : ts.length * b = ts.length * (b - 1) + ts.length := by
    have hb1 : b - 1 + 1 = b := by omega
    calc ts.length * b = ts.length * (b - 1 + 1) := by rw [hb1]
      _ = ts.length * (b - 1) + ts.length := by ring
  have h2 : 2 * (b - 1) ≤ ts.length * (b - 1) := Nat.mul_le_mul_right _ hts
  omega

theorem unionLevels_length_le_one (union : α → α → α) (empty : α) (b : ℕ)
    (hb : 2 ≤ b) :
    ∀ (fuel : ℕ) (ts : List α), ts.length ≤ fuel + 1 →
      (unionLevels union empty b fuel ts).length ≤ 1 := by
  intro fuel
  induction fuel with
  | zero =>
      intro ts h
      rw [unionLevels]
      omega
  | succ n ih =>
      intro ts h
      rw [unionLevels]
      split_ifs with hlen
      · exact hlen
      · push_neg at hlen
        apply ih
        have := unionLevel_length_lt union empty b hb ts (by omega)
        omega

theorem foldl_union_assoc (union : α → α → α)
    (hassoc : ∀ x y z, union (union x y) z = union x (union y z)) :
    ∀ (l : List α) (a x : α),
      l.foldl union (union a x) = union a (l.foldl union x) := by
  intro l
  induction l with
  | nil => intro a x; rfl
  | cons y ys ih =>
      intro a x
      rw [List.foldl_cons, List.foldl_cons, hassoc, ih]

theorem take_cons_of_pos (b : ℕ) (hb : 1 ≤ b) (x : α) (xs : List α) :
    (x :: xs).take b = x :: xs.take (b - 1) := by
  match b, hb with
  | b' + 1, _ => simp

theorem foldl_unionLevel (union : α → α → α) (empty : α)
    (hassoc : ∀ x y z, union (union x y) z = union x (union y z))
    (b : ℕ) (hb : 1 ≤ b) :
    ∀ (n : ℕ) (l : List α), l.length ≤ n → ∀ a : α,
      (unionLevel union empty b l).foldl union a = l.foldl union a := by
  intro n
  induction n with
  | zero =>
      intro l hl a
      have hnil : l = [] := List.eq_nil_of_length_eq_zero (Nat.le_zero.mp hl)
      subst hnil
      rw [unionLevel, pyChunks]
      rfl
  | succ n ih =>
      intro l hl a
      match l with
      | [] =>
          rw [unionLevel, pyChunks]
          rfl
      | x :: xs =>
          rw [unionLevel, pyChunks, List.map_cons, List.foldl_cons,
            take_cons_of_pos b hb]
          have hrest : (pyChunks b (xs.drop (b - 1))).map (unionBatch union empty) =
              unionLevel union empty b (xs.drop (b - 1)) := rfl
          have hd : (xs.drop (b - 1)).length ≤ n := by
            simp only [List.length_drop]
            simp only [List.length_cons] at hl
            omega
          rw [hrest, ih (xs.drop (b - 1)) hd]
          show (xs.drop (b - 1)).foldl union
              (union a ((xs.take (b - 1)).foldl union x)) = (x :: xs).foldl union a
          rw [foldl_union_assoc union hassoc, ← List.foldl_append,
            List.take_append_drop, List.foldl_cons,
            foldl_union_assoc union hassoc]

theorem unionBatch_unionLevel (union : α → α → α) (empty : α)
    (hassoc : ∀ x y z, union (union x y) z = union x (union y z))
    (b : ℕ) (hb : 1 ≤ b) (x : α) (xs : List α) :
    unionBatch union empty (unionLevel union empty b (x :: xs)) =
      unionBatch union empty (x :: xs) := by
  rw [unionLevel, pyChunks, List.map_cons, take_cons_of_pos b hb]
  show ((pyChunks b (xs.drop (b - 1))).map (unionBatch union empty)).foldl union
      ((xs.take (b - 1)).foldl union x) = xs.foldl union x
  have hrest : (pyChunks b (xs.drop (b - 1))).map (unionBatch union empty) =
      unionLevel union empty b (xs.drop (b - 1)) := rfl
  rw [hrest, foldl_unionLevel union empty hassoc b hb (xs.drop (b - 1)).length _
    le_rfl, ← List.foldl_append, List.take_append_drop]

theorem unionLevel_ne_nil (union : α → α → α) (empty : α) (b : ℕ)
    (x : α) (xs : List α) :
    unionLevel union empty b (x :: xs) ≠ [] := by
  rw [unionLevel, pyChunks]
  simp

theorem unionBatch_unionLevels (union : α → α → α) (empty : α)
    (hassoc : ∀ x y z, union (union x y) z = union x (union y z))
    (b : ℕ) (hb : 1 ≤ b) :
    ∀ (fuel : ℕ) (l : List α), l ≠ [] →
      unionLevels union empty b fuel l ≠ [] ∧
      unionBatch union empty (unionLevels union empty b fuel l) =
        unionBatch union empty l := by
  intro fuel
  induction fuel with
  | zero =>
      intro l hl
      exact ⟨hl, rfl⟩
  | succ n ih =>
      intro l hl
      rw [unionLevels]
      split_ifs with hlen
      · exact ⟨hl, rfl⟩
      · match l, hl with
        | x :: xs, _ =>
            obtain ⟨h1, h2⟩ := ih (unionLevel union empty b (x :: xs))
              (unionLevel_ne_nil union empty b x xs)
            exact ⟨h1, h2.trans (unionBatch_unionLevel union empty hassoc b hb x xs)⟩

end TileUnion

end DTools

namespace DTools

/-- C5: for every list of tile solids and any batch size ≥ 2 (the default is
10), `union_tiles_hierarchical` returns the empty solid for zero tiles, the
single tile unchanged for one tile, and otherwise the result of repeatedly
partitioning the list into fixed-size batches, unioning each batch
sequentially, and recursing until one solid remains — which, for an
associative and commutative union, equals the naive sequential union of all
input tiles (associativity alone already suffices for the proof). -/
theorem union_tiles_hierarchical_spec {α : Type} (union : α → α → α) (empty : α)
    (hassoc : ∀ x y z, union (union x y) z = union x (union y z))
    (hcomm : ∀ x y, union x y = union y x)
    (b : ℕ) (hb : 2 ≤ b) (tiles : List α) :
    (tiles = [] → union_tiles_hierarchical union empty tiles b = empty) ∧
    (∀ t rest, tiles = t :: rest →
      union_tiles_hierarchical union empty tiles b = rest.foldl union t) := by
  constructor
  · rintro rfl
    rfl
  · rintro t rest rfl
    match rest with
    | [] => rfl
    | r :: rs =>
        show (match unionLevels union empty b (t :: r :: rs).length (t :: r :: rs) with
          | [] => empty
          | x :: _ => x) = (r :: rs).foldl union t
        obtain ⟨hne, hbatch⟩ := unionBatch_unionLevels union empty hassoc b
          (by omega) (t :: r :: rs).length (t :: r :: rs) (by simp)
        have hlen : (unionLevels union empty b (t :: r :: rs).length
            (t :: r :: rs)).length ≤ 1 :=
          unionLevels_length_le_one union empty b hb _ _ (by simp)
        match hL : unionLevels union empty b (t :: r :: rs).length (t :: r :: rs) with
        | [] => exact absurd hL hne
        | [x] =>
            rw [hL] at hbatch
            exact hbatch
        | x :: y :: ys =>
            rw [hL] at hlen
            simp at hlen

/-- Witness for `union_tiles_hierarchical_spec`: three natural-number tiles,
addition as union, batch size 2. -/
theorem union_tiles_hierarchical_spec_witness :
    union_tiles_hierarchical (fun a b : ℕ => a + b) 0 [1, 2, 3] 2 =
      [2, 3].foldl (fun a b : ℕ => a + b) 1 :=
  (union_tiles_hierarchical_spec (fun a b : ℕ => a + b) 0
    (fun x y z => Nat.add_assoc x y z) (fun x y => Nat.add_comm x y)
    2 (by omega) [1, 2, 3]).2 1 [2, 3] rfl

end DTools

namespace DTools

/-- With `batch_size = 1` every batch is a singleton, so one level maps the
tile list to itself. -/
theorem unionLevel_one_eq {α : Type} (union : α → α → α) (empty : α) :
    ∀ ts : List α, unionLevel union empty 1 ts = ts := by
  intro ts
  induction ts with
  | nil => rw [unionLevel, pyChunks]; rfl
  | cons x xs ih =>
      rw [unionLevel, pyChunks, List.map_cons]
      have h1 : (x :: xs).take 1 = [x] := rfl
      have h2 : xs.drop (1 - 1) = xs := rfl
      rw [h1, h2]
      show unionBatch union empty [x] :: (pyChunks 1 xs).map (unionBatch union empty) =
        x :: xs
      rw [show unionBatch union empty [x] = x from rfl,
        show (pyChunks 1 xs).map (unionBatch union empty) =
          unionLevel union empty 1 xs from rfl, ih]

/-- C10: `union_tiles_hierarchical`'s while loop terminates for every input
tile list whenever `batch_size ≥ 2`, because each level maps `n > 1` tiles to
`ceil(n/batch_size) < n` tiles, so some iteration count reaches a list of
length ≤ 1 (the loop exit condition); but for `batch_size = 1` every level
reproduces the input list exactly, so with two or more tiles no iteration
count ever reaches the exit condition — the loop never terminates. -/
theorem union_tiles_loop_termination {α : Type} (union : α → α → α) (empty : α)
    (ts : List α) (b : ℕ) :
    (2 ≤ b → 2 ≤ ts.length →
      (unionLevel union empty b ts).length < ts.length) ∧
    (2 ≤ b → ∃ k, (levelIter union empty b k ts).length ≤ 1) ∧
    (b = 1 → ∀ k, levelIter union empty 1 k ts = ts) ∧
    (b = 1 → 2 ≤ ts.length →
      ∀ k, ¬ (levelIter union empty 1 k ts).length ≤ 1) := by
  have hone : b = 1 → ∀ k, levelIter union empty 1 k ts = ts := by
    rintro rfl k
    induction k generalizing ts with
    | zero => rfl
    | succ n ih =>
        rw [levelIter, unionLevel_one_eq]
        exact ih ts
  refine ⟨fun hb hts => unionLevel_length_lt union empty b hb ts hts, ?_, hone, ?_⟩
  · intro hb
    have key : ∀ (n : ℕ) (l : List α), l.length ≤ n + 1 →
        ∃ k, (levelIter union empty b k l).length ≤ 1 := by
      intro n
      induction n with
      | zero => intro l hl; exact ⟨0, hl⟩
      | succ m ih =>
          intro l hl
          rcases le_or_lt l.length 1 with h1 | h1
          · exact ⟨0, h1⟩
          · have hlt := unionLevel_length_lt union empty b hb l (by omega)
            obtain ⟨k, hk⟩ := ih (unionLevel union empty b l) (by omega)
            exact ⟨k + 1, by rw [levelIter]; exact hk⟩
    exact key ts.length ts (by omega)
  · intro hb hts k
    rw [hone hb k]
    omega

/-- Witness for `union_tiles_loop_termination`: with batch size 2 the loop
over three tiles terminates. -/
theorem union_tiles_loop_termination_witness :
    2 ≤ 2 ∧ ∃ k, (levelIter (fun a b : ℕ => a + b) 0 2 k [1, 2, 3]).length ≤ 1 :=
  ⟨le_refl 2,
    (union_tiles_loop_termination (fun a b : ℕ => a + b) 0 [1, 2, 3] 2).2.1
      (le_refl 2)⟩

end DTools

namespace DTools

theorem Vec3.ext' {K : Type} {a b : Vec3 K}
    (hx : a.x = b.x) (hy : a.y = b.y) (hz : a.z = b.z) : a = b := by
  cases a
  cases b
  simp_all

/-- Kernel `Shape.translate(w)`, point-set semantics. -/
def translateSet (S : Set (Vec3 ℝ)) (w : Vec3 ℝ) : Set (Vec3 ℝ) :=
  {p | ∃ q ∈ S, p = q.add w}

/-- Linear extrusion of a planar region along a direction `n` for height `h`
(the kernel's `extrude` on the pending face wire), point-set semantics. -/
def extrudeAlong (base : Set (Vec3 ℝ)) (n : Vec3 ℝ) (h : ℝ) : Set (Vec3 ℝ) :=
  {p | ∃ q ∈ base, ∃ t : ℝ, 0 ≤ t ∧ t ≤ h ∧ p = q.add (n.multiply t)}

/-- The per-face data consumed by `add_hex_texture_to_faces`:
the planar region enclosed by `face.outerWire()`, the face normal
`face.normalAt()`, and the aggregate hexagon texture solid returned by
`_generate_hex_texture_for_face` (`none` models its `None` return when no
hexagons are retained). -/
structure FaceData where
  boundaryRegion : Set (Vec3 ℝ)
  normal : Vec3 ℝ
  texture : Option (Set (Vec3 ℝ))

/-- The `face_solid` clipping volume of `add_hex_texture_to_faces`: extrude
the face's boundary wire along the normal by `hex_height_max * 3`, then
translate by `normal.multiply(-hex_height_max * 1.5)`. -/
def clipVolume (f : FaceData) (hexHeightMax : ℝ) : Set (Vec3 ℝ) :=
  translateSet (extrudeAlong f.boundaryRegion f.normal (hexHeightMax * 3))
    (f.normal.multiply (-(hexHeightMax * 1.5)))

/-- The per-face step of the loop in `add_hex_texture_to_faces`: skip the face
when `_generate_hex_texture_for_face` returned `None`, otherwise intersect the
texture with the clipping volume and union it into the running result. -/
def processFace (acc : Set (Vec3 ℝ)) (f : FaceData) (hexHeightMax : ℝ) :
    Set (Vec3 ℝ) :=
  match f.texture with
  | none => acc
  | some tex => acc ∪ (tex ∩ clipVolume f hexHeightMax)

/-- Source `add_hex_texture_to_faces(workplane, details)` at the boolean-composition
level: raise `ValueError` when no faces are selected, otherwise fold the
per-face clip-and-union step over the selected faces starting from the input
solid. -/
def add_hex_texture_to_faces (faces : List FaceData) (base : Set (Vec3 ℝ))
    (details : HoneycombTexture ℝ) : Except String (Set (Vec3 ℝ)) :=
  match faces with
  | [] => Except.error "No faces selected. Please select faces before applying texture."
  | f :: fs =>
      Except.ok ((f :: fs).foldl
        (fun acc g => processFace acc g details.hex_height_max) base)

/-- C8: if the input workplane has zero selected faces, the texture entry
point fails immediately with the `ValueError` (an error, not a silent no-op),
before any face is processed, and in that case no solid — in particular not
the unmodified input — is ever returned. -/
theorem no_faces_selected_fatal (faces : List FaceData) (base : Set (Vec3 ℝ))
    (d : HoneycombTexture ℝ) :
    (add_hex_texture_to_faces faces base d =
        Except.error
          "No faces selected. Please select faces before applying texture." ↔
      faces = []) ∧
    (faces = [] → ∀ s : Set (Vec3 ℝ),
      ¬ add_hex_texture_to_faces faces base d = Except.ok s) := by
  constructor
  · match faces with
    | [] => simp [add_hex_texture_to_faces]
    | f :: fs => simp [add_hex_texture_to_faces]
  · rintro rfl s
    simp [add_hex_texture_to_faces]

/-- Witness for `no_faces_selected_fatal`: the empty face selection errors and
returns no solid. -/
theorem no_faces_selected_fatal_witness :
    add_hex_texture_to_faces [] ∅ (⟨5, 1, 3, 10, 0, 1⟩ : HoneycombTexture ℝ) =
        Except.error
          "No faces selected. Please select faces before applying texture." ∧
      ¬ add_hex_texture_to_faces [] ∅ (⟨5, 1, 3, 10, 0, 1⟩ : HoneycombTexture ℝ) =
        Except.ok (∅ : Set (Vec3 ℝ)) :=
  ⟨(no_faces_selected_fatal [] ∅ ⟨5, 1, 3, 10, 0, 1⟩).1.mpr rfl,
   (no_faces_selected_fatal [] ∅ ⟨5, 1, 3, 10, 0, 1⟩).2 rfl ∅⟩

theorem mem_clipVolume (f : FaceData) (H : ℝ) (p : Vec3 ℝ)
    (hp : p ∈ clipVolume f H) :
    ∃ t : ℝ, |t| ≤ H * 1.5 ∧ p.sub (f.normal.multiply t) ∈ f.boundaryRegion := by
  obtain ⟨q, hq, hpq⟩ := hp
  obtain ⟨q0, hq0, t, ht0, ht1, hq0t⟩ := hq
  refine ⟨t - H * 1.5, ?_, ?_⟩
  · rw [abs_le]
    constructor <;> [linarith; linarith]
  · have hv : ((q0.add (f.normal.multiply t)).add
        (f.normal.multiply (-(H * 1.5)))).sub
          (f.normal.multiply (t - H * 1.5)) = q0 := by
      apply Vec3.ext' <;> simp [Vec3.add, Vec3.sub, Vec3.multiply] <;> ring
    rw [hpq, hq0t, hv]
    exact hq0

theorem mem_foldl_processFace (H : ℝ) :
    ∀ (faces : List FaceData) (acc : Set (Vec3 ℝ)) (p : Vec3 ℝ),
      p ∈ faces.foldl (fun a f => processFace a f H) acc →
      p ∈ acc ∨ ∃ f ∈ faces, p ∈ clipVolume f H := by
  intro faces
  induction faces with
  | nil =>
      intro acc p hp
      exact Or.inl hp
  | cons f fs ih =>
      intro acc p hp
      rw [List.foldl_cons] at hp
      rcases ih _ p hp with hacc | ⟨g, hg, hclip⟩
      · unfold processFace at hacc
        match htex : f.texture with
        | none =>
            rw [htex] at hacc
            exact Or.inl hacc
        | some tex =>
            rw [htex] at hacc
            rw [Set.mem_union] at hacc
            rcases hacc with h | h
            · exact Or.inl h
            · exact Or.inr ⟨f, by simp, h.2⟩
      · exact Or.inr ⟨g, by simp [hg], hclip⟩

/-- C6: for every processed face that yields texture geometry, the Boolean
Compositor intersects the texture with the clipping volume obtained by
extruding the face's own boundary along its normal for `3 × hex_height_max`
and translating it by `−1.5 × hex_height_max` along the normal (the
definition of `clipVolume`), and unions the clipped texture into the running
result; consequently every point of the textured result either belongs to the
input solid or lies, up to a displacement of at most `1.5 × hex_height_max`
along some processed face's normal (the volume straddles the face on both
sides), inside that face's own boundary region — the texture's footprint does
not exceed the face's footprint. -/
theorem texture_clipped_to_face (faces : List FaceData) (base : Set (Vec3 ℝ))
    (d : HoneycombTexture ℝ) (s : Set (Vec3 ℝ))
    (hok : add_hex_texture_to_faces faces base d = Except.ok s) :
    ∀ p ∈ s, p ∈ base ∨ ∃ f ∈ faces, ∃ t : ℝ,
      |t| ≤ d.hex_height_max * 1.5 ∧
      p.sub (f.normal.multiply t) ∈ f.boundaryRegion := by
  intro p hp
  match faces, hok with
  | f :: fs, hok =>
      have hs : s = (f :: fs).foldl
          (fun acc g => processFace acc g d.hex_height_max) base := by
        have := hok
        rw [add_hex_texture_to_faces] at this
        exact (Except.ok.injEq _ _).mp this.symm
      rw [hs] at hp
      rcases mem_foldl_processFace d.hex_height_max (f :: fs) base p hp with
        hb | ⟨g, hg, hclip⟩
      · exact Or.inl hb
      · exact Or.inr ⟨g, hg, mem_clipVolume g d.hex_height_max p hclip⟩

/-- Witness for `texture_clipped_to_face`: one face with no retained
hexagons, empty base solid. -/
theorem texture_clipped_to_face_witness :
    add_hex_texture_to_faces [⟨∅, ⟨0, 0, 1⟩, none⟩] ∅
        (⟨5, 1, 3, 10, 0, 1⟩ : HoneycombTexture ℝ) = Except.ok ∅ ∧
    ∀ p ∈ (∅ : Set (Vec3 ℝ)), p ∈ (∅ : Set (Vec3 ℝ)) ∨
      ∃ f ∈ [(⟨∅, ⟨0, 0, 1⟩, none⟩ : FaceData)], ∃ t : ℝ,
        |t| ≤ (⟨5, 1, 3, 10, 0, 1⟩ : HoneycombTexture ℝ).hex_height_max * 1.5 ∧
        p.sub (f.normal.multiply t) ∈ f.boundaryRegion :=
  ⟨rfl,
   texture_clipped_to_face [⟨∅, ⟨0, 0, 1⟩, none⟩] ∅ ⟨5, 1, 3, 10, 0, 1⟩
     ∅ rfl⟩

end DTools

namespace DTools

/-- The inner loop of the Solid Batch Builder in
`_generate_hex_texture_for_face`: for each retained position of a height
group, try to build and extrude the hexagon (`build p h`, where `none` models
the caught exception — warning printed, hexagon skipped) and union a success
into the running result (`none` = Python's `result is None` initial state). -/
def buildGroup {α β γ : Type} (union : α → α → α) (build : β → γ → Option α)
    (h : γ) (positions : List β) (acc : Option α) : Option α :=
  positions.foldl (fun res p =>
    match build p h with
    | none => res
    | some s =>
        match res with
        | none => some s
        | some r => some (union r s)) acc

/-- The outer loop over the height groups: fold `buildGroup` over all
`(batch_height, positions)` entries with the shared running result. -/
def buildAllGroups {α β γ : Type} (union : α → α → α) (build : β → γ → Option α)
    (groups : List (γ × List β)) : Option α :=
  groups.foldl (fun res g => buildGroup union build g.1 g.2 res) none

/-- The tail of `_generate_hex_texture_for_face`: `if not height_groups:
return None`; otherwise build all groups and `assert result is not None` — a
run in which every hexagon construction failed leaves `result` as `None` and
the assertion raises (`Except.error ()` models the `AssertionError`). -/
def generateTextureResult {α β γ : Type} (union : α → α → α)
    (build : β → γ → Option α) (groups : List (γ × List β)) :
    Except Unit (Option α) :=
  match groups with
  | [] => Except.ok none
  | g :: gs =>
      match buildAllGroups union build (g :: gs) with
      | none => Except.error ()
      | some s => Except.ok (some s)

/-- Counterexample to C9 as stated: when the only retained hexagon of the
only height group fails to build, the skip-and-continue loop leaves the
result empty and the `assert result is not None` at the end of
`_generate_hex_texture_for_face` raises an `AssertionError` — the single
hexagon's construction failure aborts the texture pass. -/
theorem single_hexagon_failure_aborts :
    generateTextureResult (fun a b : ℕ => a + b)
      (fun (_ : ℚ × ℚ) (_ : ℚ) => (none : Option ℕ))
      [((0 : ℚ), [((0 : ℚ), (0 : ℚ))])] = Except.error () := rfl

theorem buildGroup_skip {α β γ : Type} (union : α → α → α)
    (build : β → γ → Option α) (h : γ) (p : β) (hfail : build p h = none)
    (ps1 ps2 : List β) (acc : Option α) :
    buildGroup union build h (ps1 ++ p :: ps2) acc =
      buildGroup union build h (ps1 ++ ps2) acc := by
  unfold buildGroup
  rw [List.foldl_append, List.foldl_append, List.foldl_cons, hfail]

theorem generateTextureResult_of_some {α β γ : Type} (union : α → α → α)
    (build : β → γ → Option α) (groups : List (γ × List β))
    (hne : groups ≠ []) (s : α)
    (hs : buildAllGroups union build groups = some s) :
    generateTextureResult union build groups = Except.ok (some s) := by
  match groups, hne with
  | g :: gs, _ =>
      show (match buildAllGroups union build (g :: gs) with
        | none => Except.error ()
        | some s => Except.ok (some s)) = _
      rw [hs]

/-- C9 (amended): a failure to construct or extrude one hexagon is caught and
that single hexagon is omitted — the run computes exactly the same result as
the run over the same groups with the failing hexagon removed, so every
remaining hexagon in its group and in the other groups is still processed;
and the pass does not abort provided the remaining hexagons leave a non-empty
result (when every retained hexagon fails, the final
`assert result is not None` aborts the pass instead, see
`single_hexagon_failure_aborts`). -/
theorem hexagon_failure_skipped {α β γ : Type} (union : α → α → α)
    (build : β → γ → Option α) (h : γ) (p : β) (hfail : build p h = none)
    (g1 g2 : List (γ × List β)) (ps1 ps2 : List β) :
    (buildAllGroups union build (g1 ++ (h, ps1 ++ p :: ps2) :: g2) =
      buildAllGroups union build (g1 ++ (h, ps1 ++ ps2) :: g2)) ∧
    (∀ s : α, buildAllGroups union build (g1 ++ (h, ps1 ++ ps2) :: g2) = some s →
      generateTextureResult union build (g1 ++ (h, ps1 ++ p :: ps2) :: g2) =
        Except.ok (some s)) := by
  have hmain : buildAllGroups union build (g1 ++ (h, ps1 ++ p :: ps2) :: g2) =
      buildAllGroups union build (g1 ++ (h, ps1 ++ ps2) :: g2) := by
    unfold buildAllGroups
    rw [List.foldl_append, List.foldl_append, List.foldl_cons, List.foldl_cons]
    show List.foldl _ (buildGroup union build h (ps1 ++ p :: ps2) _) g2 =
      List.foldl _ (buildGroup union build h (ps1 ++ ps2) _) g2
    rw [buildGroup_skip union build h p hfail]
  refine ⟨hmain, fun s hs => ?_⟩
  exact generateTextureResult_of_some union build _ (by simp) s
    (hmain.trans hs)

/-- Witness for `hexagon_failure_skipped`: a group with one failing and one
succeeding hexagon computes the same result as the group without the failing
one. -/
theorem hexagon_failure_skipped_witness :
    (fun (p : ℕ) (_ : ℕ) => if p = 0 then (none : Option ℕ) else some p) 0 7 =
        none ∧
      buildAllGroups (fun a b : ℕ => a + b)
          (fun (p : ℕ) (_ : ℕ) => if p = 0 then (none : Option ℕ) else some p)
          ([] ++ (7, [1] ++ 0 :: []) :: []) =
        buildAllGroups (fun a b : ℕ => a + b)
          (fun (p : ℕ) (_ : ℕ) => if p = 0 then (none : Option ℕ) else some p)
          ([] ++ (7, [1] ++ []) :: []) :=
  ⟨rfl,
   (hexagon_failure_skipped (fun a b : ℕ => a + b)
     (fun (p : ℕ) (_ : ℕ) => if p = 0 then (none : Option ℕ) else some p)
     7 0 rfl [] [] [1] []).1⟩

end DTools
